import Mathlib

/-!
Shallow embedding of the `GitlabReporter` class from
`vedro_gitlab_reporter/_gitlab_reporter.py`, together with theorems that
check the specification claims about it.

Conventions of the embedding:
* Python dictionaries (insertion ordered) become association lists with an
  update-in-place-or-append insert (`dictInsert`) and first-match lookup
  (`dictLookup`).
* Python sets of scope keys become `Finset String`.
* Fractional timestamps become `Option ℚ`; Python `int()` truncation toward
  zero becomes `ratTrunc`, and Python truthiness (`None` and `0.0` are falsy)
  is modelled explicitly in `truncTs`.
* Console side effects become a list of structured `ConsoleEvent` values in
  emission order; `render` gives the exact text each event writes.
* A `KeyError` escaping a handler is modelled by an `Option`/`Bool` flag,
  paired with the events emitted before the exception was raised.
-/

namespace VedroGitlab

/-- Outcome of a step as queried by `_print_steps`: `is_passed()`,
`is_failed()`, or anything else (such as a step that never ran), which the
printer skips. -/
inductive Status where
  | passed
  | failed
  | pending
  deriving DecidableEq

/-- Embedding of the fields of a vedro `StepResult` that the reporter reads:
the step name, its status, the optional fractional `started_at` / `ended_at`
timestamps (seconds), and the optional exception info, modelled as the
already-formatted traceback text that `format_exception` followed by
`str.join` would produce. -/
structure StepResult where
  step_name : String
  status : Status
  started_at : Option ℚ := none
  ended_at : Option ℚ := none
  exc_info : Option String := none
  deriving DecidableEq

/-- Embedding of the fields of a vedro `ScenarioResult` that the reporter
reads: the subject, the ordered step results, and the insertion-ordered
scope mapping (empty list models both an absent and an empty scope, which
Python truthiness treats alike). -/
structure ScenarioResult where
  scenario_subject : String
  step_results : List StepResult
  scope : List (String × String) := []
  deriving DecidableEq

/-- The per-scenario mutable state of the reporter:
`self._scenario_steps : Dict[str, Set[str]]` and
`self._prev_step_name : Union[str, None]`. -/
structure ReporterState where
  scenario_steps : List (String × Finset String)
  prev_step_name : Option String
  deriving DecidableEq

/-- First-match lookup in an insertion-ordered dictionary (`d[k]`,
`none` modelling a raised `KeyError`). -/
def dictLookup {α : Type} (d : List (String × α)) (k : String) : Option α :=
  match d with
  | [] => none
  | (k', v) :: rest => if k' = k then some v else dictLookup rest k

/-- Python dictionary assignment `d[k] = v`: updates the existing entry in
place (keeping its position) or appends a new entry at the end. -/
def dictInsert {α : Type} (d : List (String × α)) (k : String) (v : α) :
    List (String × α) :=
  match d with
  | [] => [(k, v)]
  | (k', v') :: rest =>
    if k' = k then (k, v) :: rest else (k', v') :: dictInsert rest k v

/-- `scope.keys()` as a set: the set of keys of the scope mapping. -/
def scopeKeys (scope : List (String × String)) : Finset String :=
  (scope.map Prod.fst).toFinset

/-- The state right after `on_scenario_run`: the step-to-delta mapping is
cleared and the previous-step pointer reset to `None`. -/
def initState : ReporterState := ⟨[], none⟩

/-- One console side effect, in emission order. `print text style` is
`self._console.print(text, style=...)` (newline-terminated);
`sectionStart` and `sectionEnd` are the writes done by
`_print_section_start` / `_print_section_end`. -/
inductive ConsoleEvent where
  | print (text : String) (style : Option String)
  | sectionStart (name : String) (ts : Int) (collapsed : Bool)
  | sectionEnd (name : String) (ts : Int)
  deriving DecidableEq

/-- `GitlabReporter.on_step_end`: reads the current scope keys from the
active scenario result, stores this step delta (full key set for the first
step, otherwise the key set minus the delta recorded for the immediately
preceding step, `none` modelling the `KeyError` were that record absent),
and advances the previous-step pointer. The handler makes no console call,
so its event list is always empty. -/
def on_step_end (scope : List (String × String)) (step_name : String)
    (st : ReporterState) : Option ReporterState × List ConsoleEvent :=
  let step_scope := scopeKeys scope
  match st.prev_step_name with
  | some prev =>
    match dictLookup st.scenario_steps prev with
    | some prev_step_scope =>
      (some ⟨dictInsert st.scenario_steps step_name (step_scope \ prev_step_scope),
        some step_name⟩, [])
    | none => (none, [])
  | none =>
    (some ⟨dictInsert st.scenario_steps step_name step_scope, some step_name⟩, [])

/-- Sequential processing of step-end events, each carrying the scope
observed on the scenario result at that moment and the step name. -/
def runSteps (events : List (List (String × String) × String))
    (st : ReporterState) : Option ReporterState :=
  match events with
  | [] => some st
  | (scope, name) :: rest =>
    match (on_step_end scope name st).1 with
    | some st' => runSteps rest st'
    | none => none

/-- The delta recorded for a step name in the final state (empty set when
the run failed or the name is absent); used to inspect concrete runs. -/
def deltaOf (st : Option ReporterState) (name : String) : Finset String :=
  match st with
  | some s => (dictLookup s.scenario_steps name).getD ∅
  | none => ∅

/-- Truncation toward zero, the behaviour of Python `int()` on a number. -/
def ratTrunc (q : ℚ) : Int := if 0 ≤ q then q.floor else q.ceil

/-- `int(ts) if ts else 0`: Python truthiness makes both `None` and `0.0`
yield `0`; any other value is truncated toward zero. -/
def truncTs : Option ℚ → Int
  | none => 0
  | some t => if t = 0 then 0 else ratTrunc t

/-- Model of the external vedro helper `format_scope` (an out-of-scope
collaborator): it formats each scope entry in insertion order, keeping the
key and rendering the value; a string value is rendered JSON-style inside
double quotes. Only key identity, order and emptiness matter to the
reporter logic. -/
def format_scope (scope : List (String × String)) : List (String × String) :=
  scope.map (fun kv => (kv.1, "\"" ++ kv.2 ++ "\""))

/-- `GitlabReporter._print_section_start` as an event (the default for the
collapsed flag is `true`, as in the source). -/
def print_section_start (name : String) (started_at : Int)
    (is_collapsed : Bool := true) : ConsoleEvent :=
  .sectionStart name started_at is_collapsed

/-- `GitlabReporter._print_section_end` as an event. -/
def print_section_end (name : String) (ended_at : Int) : ConsoleEvent :=
  .sectionEnd name ended_at

/-- The exact text each event writes to the console stream: plain prints and
section ends go through `console.print` and gain a trailing newline; the
section start is printed with an empty `end=` argument, so it has none. -/
def render : ConsoleEvent → String
  | .print text _ => text ++ "\n"
  | .sectionStart name ts collapsed =>
    "\x1b[0Ksection_start:" ++ toString ts ++ ":" ++ name ++ "[collapsed=" ++
      (if collapsed then "true" else "false") ++ "]\r\x1b[0K"
  | .sectionEnd name ts =>
    "\x1b[0Ksection_end:" ++ toString ts ++ ":" ++ name ++ "\r\x1b[0K" ++ "\n"

/-- The section label built by `_print_steps` for a step result, `none` for
statuses the printer skips. -/
def stepLabel (s : StepResult) : Option String :=
  match s.status with
  | .passed => some ("    ✔ " ++ s.step_name)
  | .failed => some ("    ✗ " ++ s.step_name)
  | .pending => none

/-- The inner loop of `_print_steps` over the formatted scope entries:
each entry whose key belongs to the step delta produces a blue key line and
a value line. -/
def print_step_vars (delta : Finset String) (formatted : List (String × String)) :
    List ConsoleEvent :=
  match formatted with
  | [] => []
  | (key, val) :: rest =>
    if key ∈ delta then
      .print ("       " ++ key ++ ": ") (some "blue") :: .print val none ::
        print_step_vars delta rest
    else
      print_step_vars delta rest

/-- The body of the `_print_steps` loop for one step result. The flag is
`false` when the per-entry lookup `self._scenario_steps[step_name]` raises
`KeyError`, which happens on the first formatted scope entry — hence only
when the formatted scope is non-empty — after the section start was already
written. -/
def print_one_step (steps : List (String × Finset String))
    (scope : List (String × String)) (s : StepResult) :
    List ConsoleEvent × Bool :=
  match stepLabel s with
  | none => ([], true)
  | some label =>
    let startEv := print_section_start label (truncTs s.started_at)
    match dictLookup steps s.step_name with
    | some delta =>
      (startEv :: (print_step_vars delta (format_scope scope) ++
        [print_section_end label (truncTs s.ended_at)]), true)
    | none =>
      if format_scope scope = [] then
        (startEv :: [print_section_end label (truncTs s.ended_at)], true)
      else
        ([startEv], false)

/-- `_print_steps` over the step results, stopping (with flag `false`) at
the first step whose processing raises. -/
def print_steps_aux (steps : List (String × Finset String))
    (scope : List (String × String)) : List StepResult → List ConsoleEvent × Bool
  | [] => ([], true)
  | s :: rest =>
    let r := print_one_step steps scope s
    if r.2 then
      let r' := print_steps_aux steps scope rest
      (r.1 ++ r'.1, r'.2)
    else
      (r.1, false)

/-- `GitlabReporter._print_steps` (the scope is read from the scenario
result, Python truthiness collapsing an absent scope to an empty one). -/
def print_steps (steps : List (String × Finset String))
    (scenario : ScenarioResult) : List ConsoleEvent × Bool :=
  print_steps_aux steps scenario.scope scenario.step_results

/-- `GitlabReporter._print_exceptions`: one yellow traceback block per step
result carrying exception info, in original order. -/
def print_exceptions_aux : List StepResult → List ConsoleEvent
  | [] => []
  | s :: rest =>
    match s.exc_info with
    | none => print_exceptions_aux rest
    | some tb => .print tb (some "yellow") :: print_exceptions_aux rest

/-- `GitlabReporter._print_exceptions` on a scenario result. -/
def print_exceptions (scenario : ScenarioResult) : List ConsoleEvent :=
  print_exceptions_aux scenario.step_results

/-- `GitlabReporter.on_scenario_fail`: prints the red failure line, then —
the two source `if` guards `verbosity == 1` and `verbosity > 1` being
mutually exclusive — the step details at verbosity 1 (propagating a
`KeyError` from `_print_steps`) or the exception blocks above 1. -/
def on_scenario_fail (verbosity : Int) (st : ReporterState)
    (scenario : ScenarioResult) : List ConsoleEvent × Bool :=
  let head : List ConsoleEvent :=
    [.print (" ✗ " ++ scenario.scenario_subject) (some "red")]
  if verbosity = 1 then
    let r := print_steps st.scenario_steps scenario
    (head ++ r.1, r.2)
  else
    (head ++ (if verbosity > 1 then print_exceptions scenario else []), true)

/-- The section event carried by a console event: start or end flag plus the
section name, `none` for plain prints. -/
def sectionTag : ConsoleEvent → Option (Bool × String)
  | .sectionStart n _ _ => some (true, n)
  | .sectionEnd n _ => some (false, n)
  | .print _ _ => none

/-- The sequence of section events inside a trace. -/
def sectionsOf (tr : List ConsoleEvent) : List (Bool × String) :=
  tr.filterMap sectionTag

/-- Whether a console event is a section control sequence. -/
def isSectionEvent (e : ConsoleEvent) : Bool := (sectionTag e).isSome

/-- Whether a console event is a section end carrying the given name. -/
def isSectionEndNamed (n : String) : ConsoleEvent → Bool
  | .sectionEnd m _ => m == n
  | _ => false

/-- Whether a section event is an end carrying the given name. -/
def endNamed (n : String) (p : Bool × String) : Bool := !p.1 && p.2 == n

/-- The section events produced by printing a list of step labels: one
start/end pair per label, in order. -/
def sectionPairs : List String → List (Bool × String)
  | [] => []
  | l :: rest => (true, l) :: (false, l) :: sectionPairs rest

/-- A step result that `_print_steps` can process without raising: it is
either skipped or has a recorded delta entry. -/
def stepOk (steps : List (String × Finset String)) (s : StepResult) : Prop :=
  stepLabel s = none ∨ (dictLookup steps s.step_name).isSome

/-! ## Helper lemmas about the dictionary embedding -/

theorem dictLookup_dictInsert_self {α : Type} (d : List (String × α))
    (k : String) (v : α) : dictLookup (dictInsert d k v) k = some v := by
  induction d with
  | nil => simp [dictInsert, dictLookup]
  | cons hd tl ih =>
    obtain ⟨k', v'⟩ := hd
    by_cases h : k' = k
    · simp [dictInsert, h, dictLookup]
    · simp [dictInsert, h, dictLookup, ih]

theorem dictInsert_map_fst_of_not_mem {α : Type} (d : List (String × α))
    (k : String) (v : α) (h : k ∉ d.map Prod.fst) :
    (dictInsert d k v).map Prod.fst = d.map Prod.fst ++ [k] := by
  induction d with
  | nil => simp [dictInsert]
  | cons hd tl ih =>
    obtain ⟨k', v'⟩ := hd
    simp only [List.map_cons, List.mem_cons] at h
    push_neg at h
    simp [dictInsert, Ne.symm h.1, ih h.2]

/-! ## Claim theorems -/

/-- C3: for a step-end event with an active scenario, `on_step_end` stores,
under the current step name, the current cumulative scope-key set minus the
delta recorded for the immediately preceding step when a previous step
exists (precisely the recorded delta, not any union of prior deltas), and
the full current scope-key set otherwise (the empty set when no scope is
recorded); afterwards the previous-step pointer equals the current step
name, and no console output is produced. -/
theorem on_step_end_spec (scope : List (String × String)) (name : String)
    (st : ReporterState) :
    (∀ p dprev, st.prev_step_name = some p →
      dictLookup st.scenario_steps p = some dprev →
      (on_step_end scope name st).1 =
        some ⟨dictInsert st.scenario_steps name (scopeKeys scope \ dprev),
          some name⟩ ∧
      dictLookup (dictInsert st.scenario_steps name (scopeKeys scope \ dprev))
        name = some (scopeKeys scope \ dprev)) ∧
    (st.prev_step_name = none →
      (on_step_end scope name st).1 =
        some ⟨dictInsert st.scenario_steps name (scopeKeys scope), some name⟩ ∧
      dictLookup (dictInsert st.scenario_steps name (scopeKeys scope)) name =
        some (scopeKeys scope)) ∧
    scopeKeys [] = (∅ : Finset String) ∧
    (on_step_end scope name st).2 = [] := by
  refine ⟨?_, ?_, rfl, ?_⟩
  · intro p dprev hp hd
    exact ⟨by simp [on_step_end, hp, hd], dictLookup_dictInsert_self _ _ _⟩
  · intro hp
    exact ⟨by simp [on_step_end, hp], dictLookup_dictInsert_self _ _ _⟩
  · rcases hp : st.prev_step_name with _ | p
    · simp [on_step_end, hp]
    · rcases hd : dictLookup st.scenario_steps p with _ | d <;>
        simp [on_step_end, hp, hd]

/-- Witness for `on_step_end_spec` at a concrete input: a second step with
scope keys {a, b} after a first step whose delta was {a}. -/
theorem on_step_end_spec_witness :
    (on_step_end [("a", "1"), ("b", "2")] "s2"
      ⟨[("s1", ({"a"} : Finset String))], some "s1"⟩).1 =
      some ⟨dictInsert [("s1", ({"a"} : Finset String))] "s2"
        (scopeKeys [("a", "1"), ("b", "2")] \ {"a"}), some "s2"⟩ :=
  ((on_step_end_spec [("a", "1"), ("b", "2")] "s2"
    ⟨[("s1", ({"a"} : Finset String))], some "s1"⟩).1 "s1" {"a"}
    rfl (by decide)).1

/-- C1 is refuted on the code: in a 3-step scenario whose scope-key set
grows monotonically ({a}, then {a, b}, then {a, b, c}), the key `a` is
attributed both to the delta of step s1 and to the delta of step s3, so the
stored deltas are not pairwise disjoint and `a` does not belong to exactly
one delta. -/
theorem delta_overlap_counterexample :
    "a" ∈ deltaOf (runSteps
      [([("a", "1")], "s1"),
       ([("a", "1"), ("b", "2")], "s2"),
       ([("a", "1"), ("b", "2"), ("c", "3")], "s3")] initState) "s1" ∧
    "a" ∈ deltaOf (runSteps
      [([("a", "1")], "s1"),
       ([("a", "1"), ("b", "2")], "s2"),
       ([("a", "1"), ("b", "2"), ("c", "3")], "s3")] initState) "s3" ∧
    ("s1" : String) ≠ "s3" := by decide

/-- C1 amended: only consecutive deltas are provably disjoint. A step delta
equals the current scope-key set minus the immediately preceding delta, so
each current scope key belongs to the new delta exactly when it is outside
the preceding delta, the new delta is disjoint from the preceding one, and
the two jointly cover the current scope keys; disjointness across
non-adjacent steps fails (see the counterexample). -/
theorem delta_adjacent_disjoint (scope : List (String × String)) (name : String)
    (st : ReporterState) (p : String) (dprev : Finset String)
    (hp : st.prev_step_name = some p)
    (hl : dictLookup st.scenario_steps p = some dprev) :
    (on_step_end scope name st).1 =
      some ⟨dictInsert st.scenario_steps name (scopeKeys scope \ dprev),
        some name⟩ ∧
    (scopeKeys scope \ dprev) ∩ dprev = ∅ ∧
    (∀ k, k ∈ scopeKeys scope → (k ∈ scopeKeys scope \ dprev ↔ k ∉ dprev)) ∧
    scopeKeys scope ⊆ (scopeKeys scope \ dprev) ∪ dprev := by
  refine ⟨by simp [on_step_end, hp, hl], ?_, ?_, ?_⟩
  · ext k
    simp only [Finset.mem_inter, Finset.mem_sdiff, Finset.not_mem_empty,
      iff_false]
    tauto
  · intro k hk
    simp [Finset.mem_sdiff, hk]
  · intro k hk
    by_cases h : k ∈ dprev <;>
      simp [Finset.mem_union, Finset.mem_sdiff, hk, h]

/-- Witness for `delta_adjacent_disjoint` at a concrete input. -/
theorem delta_adjacent_disjoint_witness :
    (on_step_end [("a", "1"), ("b", "2")] "sB"
      ⟨[("sA", ({"a"} : Finset String))], some "sA"⟩).1 =
      some ⟨dictInsert [("sA", ({"a"} : Finset String))] "sB"
        (scopeKeys [("a", "1"), ("b", "2")] \ {"a"}), some "sB"⟩ ∧
    (scopeKeys [("a", "1"), ("b", "2")] \ ({"a"} : Finset String)) ∩ {"a"} = ∅ := by
  have h := delta_adjacent_disjoint [("a", "1"), ("b", "2")] "sB"
    ⟨[("sA", ({"a"} : Finset String))], some "sA"⟩ "sA" {"a"} rfl (by decide)
  exact ⟨h.1, h.2.1⟩

/-- C7: at verbosity 0 the scenario-fail handler emits exactly one console
line, the red failure line with the scenario subject, and no section
control sequences. -/
theorem on_scenario_fail_verbosity0 (st : ReporterState)
    (scenario : ScenarioResult) :
    on_scenario_fail 0 st scenario =
      ([.print (" ✗ " ++ scenario.scenario_subject) (some "red")], true) ∧
    (on_scenario_fail 0 st scenario).1.countP isSectionEvent = 0 := by
  have h : on_scenario_fail 0 st scenario =
      ([.print (" ✗ " ++ scenario.scenario_subject) (some "red")], true) := by
    norm_num [on_scenario_fail]
  refine ⟨h, ?_⟩
  rw [h]
  simp [List.countP_cons, isSectionEvent, sectionTag]

/-- C8: the section primitives write exactly the GitLab control sequences:
the start sequence (no trailing newline, collapsed flag defaulting to true)
and the end sequence followed by a trailing newline. -/
theorem section_render_format (name : String) (ts : Int) (c : Bool) :
    render (print_section_start name ts c) =
      "\x1b[0Ksection_start:" ++ toString ts ++ ":" ++ name ++ "[collapsed=" ++
        (if c then "true" else "false") ++ "]\r\x1b[0K" ∧
    print_section_start name ts = print_section_start name ts true ∧
    render (print_section_end name ts) =
      ("\x1b[0Ksection_end:" ++ toString ts ++ ":" ++ name ++ "\r\x1b[0K") ++
        "\n" :=
  ⟨rfl, rfl, rfl⟩

/-- C9: when `_print_steps` handles a step with a recorded delta, the
section-start event carries the start timestamp and the section-end event
the end timestamp, each truncated through `truncTs`: an absent timestamp
becomes 0 (without any error), a present one is truncated toward zero
(`ratTrunc`), which is the floor for non-negative timestamps. -/
theorem step_timestamps (steps : List (String × Finset String))
    (scope : List (String × String)) (s : StepResult) (label : String)
    (delta : Finset String) (hl : stepLabel s = some label)
    (hd : dictLookup steps s.step_name = some delta) :
    print_one_step steps scope s =
      (print_section_start label (truncTs s.started_at) ::
        (print_step_vars delta (format_scope scope) ++
          [print_section_end label (truncTs s.ended_at)]), true) ∧
    truncTs none = 0 ∧
    (∀ q : ℚ, truncTs (some q) = ratTrunc q) ∧
    (∀ q : ℚ, 0 ≤ q → ratTrunc q = ⌊q⌋) := by
  refine ⟨by simp [print_one_step, hl, hd], rfl, ?_, ?_⟩
  · intro q
    by_cases h : q = 0
    · subst h
      simp only [truncTs]
      norm_num [ratTrunc]
      decide
    · simp [truncTs, h]
  · intro q hq
    rw [ratTrunc, if_pos hq, Rat.floor_def]
    exact (Rat.floor_def' q).symm ▸ rfl

/-- Witness for `step_timestamps`: a failed step with fractional start 3/2
and no end timestamp. -/
theorem step_timestamps_witness :
    print_one_step [("s", (∅ : Finset String))] []
      ⟨"s", .failed, some (mkRat 3 2), none, none⟩ =
      (print_section_start "    ✗ s" (truncTs (some (mkRat 3 2))) ::
        (print_step_vars ∅ (format_scope []) ++
          [print_section_end "    ✗ s" (truncTs none)]), true) :=
  (step_timestamps [("s", (∅ : Finset String))] []
    ⟨"s", .failed, some (mkRat 3 2), none, none⟩ "    ✗ s" ∅
    (by decide) (by decide)).1

/-- C2 contradicted by the code (evidence): at verbosity 2 the handler
prints the red failure line and then only the yellow exception block — no
step line, no section sequences, no blue scope-variable lines — even with
the final scope fully attributed to the single failed step. -/
theorem verbosity2_prints_exceptions :
    on_scenario_fail 2 ⟨[("step", ({"key"} : Finset String))], some "step"⟩
      ⟨"subj", [⟨"step", .failed, none, none, some "TB"⟩], [("key", "val")]⟩ =
      ([.print " ✗ subj" (some "red"), .print "TB" (some "yellow")], true) ∧
    (on_scenario_fail 2 ⟨[("step", ({"key"} : Finset String))], some "step"⟩
      ⟨"subj", [⟨"step", .failed, none, none, some "TB"⟩],
        [("key", "val")]⟩).1.countP isSectionEvent = 0 := by decide

/-- C4 contradicted by the code (evidence): at verbosity 1 with one failed
step (start 1.0, end 3.0) the output is the failure line, a section start
at timestamp 1 whose section name is the step label itself, and a section
end at timestamp 3 with the same label — with no separate step line printed
between them. -/
theorem verbosity1_section_label_no_step_line :
    on_scenario_fail 1 ⟨[("step", (∅ : Finset String))], some "step"⟩
      ⟨"subj", [⟨"step", .failed, some 1, some 3, none⟩], []⟩ =
      ([.print " ✗ subj" (some "red"),
        .sectionStart "    ✗ step" 1 true,
        .sectionEnd "    ✗ step" 3], true) := by decide

theorem print_one_step_ok (steps : List (String × Finset String))
    (scope : List (String × String)) (s : StepResult) (h : stepOk steps s) :
    (print_one_step steps scope s).2 = true := by
  rcases h with h | h
  · simp [print_one_step, h]
  · rcases hd : dictLookup steps s.step_name with _ | d
    · rw [hd] at h
      simp at h
    · rcases hl : stepLabel s with _ | l <;> simp [print_one_step, hl, hd]

theorem print_steps_aux_ok (steps : List (String × Finset String))
    (scope : List (String × String)) (results : List StepResult)
    (h : ∀ s ∈ results, stepOk steps s) :
    (print_steps_aux steps scope results).2 = true := by
  induction results with
  | nil => rfl
  | cons s rest ih =>
    have h1 := print_one_step_ok steps scope s (h s (by simp))
    have h2 := ih (fun s' hs' => h s' (by simp [hs']))
    simp [print_steps_aux, h1, h2]

theorem print_steps_aux_error (steps : List (String × Finset String))
    (scope : List (String × String)) (pre : List StepResult)
    (hpre : ∀ s' ∈ pre, stepOk steps s') (s : StepResult)
    (post : List StepResult) (hs : (print_one_step steps scope s).2 = false) :
    print_steps_aux steps scope (pre ++ s :: post) =
      ((print_steps_aux steps scope pre).1 ++ (print_one_step steps scope s).1,
        false) := by
  induction pre with
  | nil => simp [print_steps_aux, hs]
  | cons p pre' ih =>
    have hp := print_one_step_ok steps scope p (hpre p (by simp))
    have ih' := ih (fun s' hs' => hpre s' (by simp [hs']))
    simp [print_steps_aux, hp, ih', List.append_assoc]

theorem print_one_step_error (steps : List (String × Finset String))
    (scope : List (String × String)) (s : StepResult) (label : String)
    (hscope : scope ≠ []) (hl : stepLabel s = some label)
    (hd : dictLookup steps s.step_name = none) :
    print_one_step steps scope s =
      ([print_section_start label (truncTs s.started_at)], false) := by
  have h : format_scope scope ≠ [] := by simp [format_scope, hscope]
  simp [print_one_step, hl, hd, h]

/-- C10 is refuted as stated: with an empty scope, a failed step whose name
has no entry in the step-to-delta mapping is still printed completely and
without error, because the per-entry mapping lookup sits inside the loop
over formatted scope entries and is never reached. -/
theorem keyerror_empty_scope_counterexample :
    print_steps ([] : List (String × Finset String))
      ⟨"subj", [⟨"s", .failed, none, none, none⟩], []⟩ =
      ([.sectionStart "    ✗ s" 0 true, .sectionEnd "    ✗ s" 0], true) := by
  decide

/-- C10 amended: when the scenario scope is non-empty, the first
passed-or-failed step whose name has no delta entry makes `_print_steps`
raise `KeyError` right after emitting that step section start (the entire
output so far being the traces of the earlier steps plus that section
start); and under the precondition that every passed-or-failed step has a
delta entry, step-detail printing completes without error. -/
theorem print_steps_partiality (steps : List (String × Finset String))
    (scenario : ScenarioResult) :
    (∀ pre s post label, scenario.step_results = pre ++ s :: post →
      scenario.scope ≠ [] →
      (∀ s' ∈ pre, stepOk steps s') →
      stepLabel s = some label →
      dictLookup steps s.step_name = none →
      print_steps steps scenario =
        ((print_steps_aux steps scenario.scope pre).1 ++
          [print_section_start label (truncTs s.started_at)], false)) ∧
    ((∀ s' ∈ scenario.step_results, stepOk steps s') →
      (print_steps steps scenario).2 = true) := by
  constructor
  · intro pre s post label hres hscope hpre hl hd
    have he := print_one_step_error steps scenario.scope s label hscope hl hd
    rw [print_steps, hres,
      print_steps_aux_error steps scenario.scope pre hpre s post (by rw [he])]
    rw [he]
  · intro h
    exact print_steps_aux_ok steps scenario.scope scenario.step_results h

/-- Witness for `print_steps_partiality`: one failed step without a delta
entry and a non-empty scope. -/
theorem print_steps_partiality_witness :
    print_steps ([] : List (String × Finset String))
      ⟨"subj", [⟨"sW", .failed, none, none, none⟩], [("key", "val")]⟩ =
      ((print_steps_aux ([] : List (String × Finset String))
        [("key", "val")] []).1 ++
        [print_section_start "    ✗ sW" (truncTs none)], false) :=
  (print_steps_partiality [] ⟨"subj", [⟨"sW", .failed, none, none, none⟩],
    [("key", "val")]⟩).1 [] ⟨"sW", .failed, none, none, none⟩ [] "    ✗ sW"
    rfl (by decide) (by simp) (by decide) rfl

theorem sectionsOf_append (a b : List ConsoleEvent) :
    sectionsOf (a ++ b) = sectionsOf a ++ sectionsOf b := by
  simp [sectionsOf, List.filterMap_append]

theorem sectionsOf_print_step_vars (delta : Finset String)
    (formatted : List (String × String)) :
    sectionsOf (print_step_vars delta formatted) = [] := by
  induction formatted with
  | nil => rfl
  | cons kv rest ih =>
    obtain ⟨key, val⟩ := kv
    by_cases h : key ∈ delta <;>
      simp [print_step_vars, h, sectionsOf, List.filterMap_cons, sectionTag] <;>
      simpa [sectionsOf] using ih

theorem sectionsOf_print_one_step (steps : List (String × Finset String))
    (scope : List (String × String)) (s : StepResult)
    (h : (print_one_step steps scope s).2 = true) :
    sectionsOf (print_one_step steps scope s).1 =
      sectionPairs (stepLabel s).toList := by
  rcases hl : stepLabel s with _ | l
  · simp [print_one_step, hl, sectionsOf, sectionPairs]
  · rcases hd : dictLookup steps s.step_name with _ | d
    · by_cases hsc : format_scope scope = []
      · simp [print_one_step, hl, hd, hsc, sectionsOf, List.filterMap_cons,
          sectionTag, sectionPairs, print_section_start, print_section_end]
      · exfalso
        simp [print_one_step, hl, hd, hsc] at h
    · rw [show (print_one_step steps scope s).1 =
          print_section_start l (truncTs s.started_at) ::
            (print_step_vars d (format_scope scope) ++
              [print_section_end l (truncTs s.ended_at)]) by
        simp [print_one_step, hl, hd]]
      rw [show sectionPairs (some l).toList = [(true, l), (false, l)] from rfl]
      simp [sectionsOf, List.filterMap_cons, List.filterMap_append, sectionTag,
        print_section_start, print_section_end]
      simpa [sectionsOf] using sectionsOf_print_step_vars d (format_scope scope)

theorem print_steps_aux_cons_ok (steps : List (String × Finset String))
    (scope : List (String × String)) (s : StepResult) (rest : List StepResult)
    (h1 : (print_one_step steps scope s).2 = true) :
    print_steps_aux steps scope (s :: rest) =
      ((print_one_step steps scope s).1 ++ (print_steps_aux steps scope rest).1,
        (print_steps_aux steps scope rest).2) := by
  simp [print_steps_aux, h1]

theorem sectionsOf_print_steps_aux (steps : List (String × Finset String))
    (scope : List (String × String)) (results : List StepResult)
    (h : (print_steps_aux steps scope results).2 = true) :
    sectionsOf (print_steps_aux steps scope results).1 =
      sectionPairs (results.filterMap stepLabel) := by
  induction results with
  | nil => rfl
  | cons s rest ih =>
    by_cases h1 : (print_one_step steps scope s).2 = true
    · rw [print_steps_aux_cons_ok steps scope s rest h1] at h ⊢
      have hrest : (print_steps_aux steps scope rest).2 = true := h
      rw [sectionsOf_append, ih hrest, sectionsOf_print_one_step steps scope s h1]
      rcases hl : stepLabel s with _ | l
      · simp [hl, sectionPairs, List.filterMap_cons]
      · simp [hl, sectionPairs, List.filterMap_cons]
    · exfalso
      have hthis : (print_steps_aux steps scope (s :: rest)).2 = false := by
        simp [print_steps_aux, h1]
      rw [h] at hthis
      exact Bool.noConfusion hthis

theorem sectionPairs_countP_of_not_mem (n : String) (L : List String)
    (h : n ∉ L) : (sectionPairs L).countP (endNamed n) = 0 := by
  induction L with
  | nil => rfl
  | cons l rest ih =>
    simp only [List.mem_cons, not_or] at h
    have h' : l ≠ n := fun e => h.1 e.symm
    simp [sectionPairs, List.countP_cons, endNamed, beq_iff_eq, h', ih h.2]

theorem sectionPairs_decomp (L : List String) (hnd : L.Nodup)
    (A : List (Bool × String)) (n : String) (B : List (Bool × String))
    (h : sectionPairs L = A ++ (true, n) :: B) :
    B.countP (endNamed n) = 1 := by
  induction L generalizing A with
  | nil => simp [sectionPairs] at h
  | cons l rest ih =>
    obtain ⟨hnotmem, hnd'⟩ := List.nodup_cons.mp hnd
    match A with
    | [] =>
      simp only [sectionPairs, List.nil_append, List.cons.injEq,
        Prod.mk.injEq] at h
      obtain ⟨⟨-, hln⟩, hB⟩ := h
      subst hln
      rw [← hB]
      simp [List.countP_cons, endNamed, beq_iff_eq,
        sectionPairs_countP_of_not_mem l rest hnotmem]
    | (b₁, m₁) :: A' =>
      simp only [sectionPairs, List.cons_append, List.cons.injEq] at h
      obtain ⟨-, h⟩ := h
      match A' with
      | [] =>
        simp only [List.nil_append, List.cons.injEq, Prod.mk.injEq] at h
        exact absurd h.1.1 (by simp)
      | (b₂, m₂) :: A'' =>
        simp only [List.cons_append, List.cons.injEq] at h
        exact ih hnd' A'' h.2

theorem countP_isSectionEndNamed_eq (n : String) (tr : List ConsoleEvent) :
    tr.countP (isSectionEndNamed n) = (sectionsOf tr).countP (endNamed n) := by
  induction tr with
  | nil => rfl
  | cons e rest ih =>
    cases e <;>
      simp [sectionsOf, List.filterMap_cons, sectionTag, List.countP_cons,
        isSectionEndNamed, endNamed, ih]

/-- C5 is refuted as stated: with two failed steps sharing one name, the
successfully produced stream contains two identically-named sections, so
the first section start is followed by two section ends carrying its name,
not exactly one. -/
theorem section_pairing_counterexample :
    (print_steps [("s", (∅ : Finset String))]
      ⟨"subj", [⟨"s", .failed, none, none, none⟩,
        ⟨"s", .failed, none, none, none⟩], []⟩).2 = true ∧
    (print_steps [("s", (∅ : Finset String))]
      ⟨"subj", [⟨"s", .failed, none, none, none⟩,
        ⟨"s", .failed, none, none, none⟩], []⟩).1 =
      [] ++ ConsoleEvent.sectionStart "    ✗ s" 0 true ::
        [ConsoleEvent.sectionEnd "    ✗ s" 0,
         ConsoleEvent.sectionStart "    ✗ s" 0 true,
         ConsoleEvent.sectionEnd "    ✗ s" 0] ∧
    ([ConsoleEvent.sectionEnd "    ✗ s" 0,
      ConsoleEvent.sectionStart "    ✗ s" 0 true,
      ConsoleEvent.sectionEnd "    ✗ s" 0]).countP
        (isSectionEndNamed "    ✗ s") = 2 := by decide

/-- C5 amended: in every stream that step-detail printing produces to
completion, and in which the printed step labels are pairwise distinct,
every section-start control sequence is followed later in the stream by
exactly one section-end control sequence carrying the same section name. -/
theorem section_pairing (steps : List (String × Finset String))
    (scenario : ScenarioResult)
    (hok : (print_steps steps scenario).2 = true)
    (hnd : (scenario.step_results.filterMap stepLabel).Nodup) :
    ∀ pre n ts c post,
      (print_steps steps scenario).1 =
        pre ++ ConsoleEvent.sectionStart n ts c :: post →
      post.countP (isSectionEndNamed n) = 1 := by
  intro pre n ts c post h
  have hsec := sectionsOf_print_steps_aux steps scenario.scope
    scenario.step_results hok
  rw [show (print_steps steps scenario).1 =
    (print_steps_aux steps scenario.scope scenario.step_results).1 from rfl] at h
  rw [h, sectionsOf_append] at hsec
  rw [show sectionsOf (ConsoleEvent.sectionStart n ts c :: post) =
      (true, n) :: sectionsOf post by
    simp [sectionsOf, List.filterMap_cons, sectionTag]] at hsec
  rw [countP_isSectionEndNamed_eq]
  exact sectionPairs_decomp _ hnd _ n _ hsec.symm

/-- Witness for `section_pairing`: a single failed step, whose section start
is followed by exactly one same-named section end. -/
theorem section_pairing_witness :
    ([ConsoleEvent.sectionEnd "    ✗ sw" 0]).countP
      (isSectionEndNamed "    ✗ sw") = 1 :=
  section_pairing [("sw", (∅ : Finset String))]
    ⟨"subj", [⟨"sw", .failed, none, none, none⟩], []⟩ (by decide) (by decide)
    [] "    ✗ sw" 0 true [ConsoleEvent.sectionEnd "    ✗ sw" 0] (by decide)

/-- The reachability invariant of the reporter state: the previous-step
pointer, when set, names an entry of the step-to-delta mapping. -/
def stateInv (st : ReporterState) : Prop :=
  ∀ p, st.prev_step_name = some p → (dictLookup st.scenario_steps p).isSome

theorem on_step_end_dictInsert (scope : List (String × String)) (name : String)
    (st : ReporterState) (hinv : stateInv st) :
    ∃ delta, (on_step_end scope name st).1 =
      some ⟨dictInsert st.scenario_steps name delta, some name⟩ := by
  rcases hp : st.prev_step_name with _ | p
  · exact ⟨scopeKeys scope, by simp [on_step_end, hp]⟩
  · have hsome := hinv p hp
    rcases hd : dictLookup st.scenario_steps p with _ | d
    · rw [hd] at hsome
      simp at hsome
    · exact ⟨scopeKeys scope \ d, by simp [on_step_end, hp, hd]⟩

theorem runSteps_keys (events : List (List (String × String) × String)) :
    ∀ st : ReporterState, stateInv st →
      (st.scenario_steps.map Prod.fst ++ events.map Prod.snd).Nodup →
      (runSteps events st).map (fun s => s.scenario_steps.map Prod.fst) =
        some (st.scenario_steps.map Prod.fst ++ events.map Prod.snd) := by
  induction events with
  | nil =>
    intro st _ _
    simp [runSteps]
  | cons ev rest ih =>
    intro st hinv hnd
    obtain ⟨scope, name⟩ := ev
    obtain ⟨delta, hstep⟩ := on_step_end_dictInsert scope name st hinv
    have hmem : name ∉ st.scenario_steps.map Prod.fst := by
      intro hmem
      rcases List.nodup_append.mp hnd with ⟨-, -, hdisj⟩
      exact hdisj hmem (by simp)
    have hkeys : (dictInsert st.scenario_steps name delta).map Prod.fst =
        st.scenario_steps.map Prod.fst ++ [name] :=
      dictInsert_map_fst_of_not_mem _ _ _ hmem
    have hinv1 : stateInv ⟨dictInsert st.scenario_steps name delta, some name⟩ := by
      intro p hp
      obtain rfl : name = p := by injection hp
      rw [dictLookup_dictInsert_self]
      rfl
    have hnd1 : ((dictInsert st.scenario_steps name delta).map Prod.fst ++
        rest.map Prod.snd).Nodup := by
      rw [hkeys, List.append_assoc]
      simpa using hnd
    have hrest := ih ⟨dictInsert st.scenario_steps name delta, some name⟩
      hinv1 hnd1
    simp only [runSteps]
    rw [hstep]
    rw [show (match some (⟨dictInsert st.scenario_steps name delta,
        some name⟩ : ReporterState) with
      | some st' => runSteps rest st'
      | none => none) =
      runSteps rest ⟨dictInsert st.scenario_steps name delta, some name⟩
      from rfl]
    rw [hrest, hkeys]
    simp [List.append_assoc]

/-- C6: for a scenario whose N step-end events carry pairwise distinct step
names, after processing from a fresh scenario state the step-to-delta
mapping has exactly the N step names as keys, in call order, hence exactly
N entries. -/
theorem scenario_steps_entries (events : List (List (String × String) × String))
    (h : (events.map Prod.snd).Nodup) :
    (runSteps events initState).map
      (fun s => s.scenario_steps.map Prod.fst) = some (events.map Prod.snd) ∧
    (runSteps events initState).map (fun s => s.scenario_steps.length) =
      some events.length := by
  have hmain := runSteps_keys events initState
    (fun p hp => Option.noConfusion hp) (by simpa using h)
  constructor
  · simpa using hmain
  · rcases hr : runSteps events initState with _ | st
    · rw [hr] at hmain
      simp at hmain
    · rw [hr] at hmain
      simp only [Option.map_some', Option.some.injEq] at hmain ⊢
      have hlen := congrArg List.length hmain
      simpa [initState] using hlen

/-- Witness for `scenario_steps_entries`: two distinctly named steps give a
two-entry mapping in call order. -/
theorem scenario_steps_entries_witness :
    (runSteps [([("a", "1")], "w1"), ([("a", "1"), ("b", "2")], "w2")]
      initState).map (fun s => s.scenario_steps.map Prod.fst) =
      some ["w1", "w2"] :=
  (scenario_steps_entries
    [([("a", "1")], "w1"), ([("a", "1"), ("b", "2")], "w2")] (by decide)).1

end VedroGitlab
